import Mathlib

/-!
Formal model of the zyrajs request-dispatch core.

The definitions below are a shallow embedding of the repository's routing and
dispatch code:

* `addRoute`, `matchFrom`, `matchRoute`, `extractParams` embed `Router` from
  src/src/router.js (and the identical TypeScript class in src/unnamed/part_008);
* `runReg` and friends embed the group-context registration surface of
  `App` / `GroupContext` from src/unnamed/part_002 (`_createGroupContext`,
  `_addGroupMiddlewareToRoute`);
* `runNext`, `runHandlers`, `handleRequest` embed `App._executeMiddleware`
  (its `next` closure), the `finalHandler` loop and `App._handleRequest`;
* `parseBody` embeds `Request._parseBody` from src/unnamed/part_009;
* `Resp.setStatus` / `Resp.json` embed the `Response` wrapper (part_010).

Middleware and handler functions are user-supplied callbacks; they are deeply
embedded as names (`String`) paired with an environment assigning each name a
behaviour (`MwAct` / `HAct`) covering the actions the dispatch code can observe:
calling the continuation, sending a response (before or after calling the
continuation), throwing, passing an error to the continuation, or doing nothing.
-/

/-- ASCII uppercase of a string; models JavaScript `String.prototype.toUpperCase`
as used on HTTP method names. -/
def upper (s : String) : String := String.mk (s.toList.map Char.toUpper)

/-- Split a string at every slash character, keeping empty pieces; models
JavaScript `String.prototype.split` with separator a slash, used to view paths
as segment lists. -/
def splitAux : List Char → List Char → List String
  | [], acc => [String.mk acc.reverse]
  | c :: cs, acc =>
    if c = '/' then String.mk acc.reverse :: splitAux cs []
    else splitAux cs (c :: acc)

/-- Segments of a path string, split at slashes. -/
def splitPath (p : String) : List String := splitAux p.toList []

/-- One segment of a compiled route pattern: either a literal segment or a
named parameter capturing one segment. -/
inductive Seg where
  | lit (s : String)
  | param (name : String)
deriving DecidableEq, Repr

/-- Modelled from the spec: classification of one pattern segment, §4.1 — a
segment beginning with a colon is a named parameter, all other segments are
literals. The compiling code itself (the path-to-regexp dependency called by
`Router.addRoute`) is not part of the repository. -/
def segOfString (s : String) : Seg :=
  match s.toList with
  | ':' :: rest => Seg.param (String.mk rest)
  | _ => Seg.lit s

/-- Modelled from the spec: compilation of a route pattern into its segment
list, §4.1 (segments separated by slashes; colon segments are named
parameters). Stands in for the absent path-to-regexp compiler. -/
def compileSegs (pat : String) : List Seg := (splitPath pat).map segOfString

/-- Name declared by a pattern segment, when it is a parameter. -/
def segParamName : Seg → Option String
  | Seg.param n => some n
  | Seg.lit _ => none

/-- Ordered parameter names declared by a pattern, in capture order. -/
def paramNamesOf (pat : String) : List String :=
  (compileSegs pat).filterMap segParamName

/-- Modelled from the spec: anchored structural matching of a segment list
against the segments of a concrete path, §4.1 — a literal must match
byte-for-byte, a parameter matches exactly one non-empty segment, and the whole
path must be consumed. Returns the captured values in order on success. -/
def matchSegs : List Seg → List String → Option (List String)
  | [], [] => some []
  | Seg.lit l :: ps, s :: ss => if s = l then matchSegs ps ss else none
  | Seg.param _ :: ps, s :: ss =>
    if s = "" then none else (matchSegs ps ss).map (fun caps => s :: caps)
  | _, _ => none

/-- Modelled from the spec: the structural matcher a pattern compiles to, §4.1.
Tests a concrete path and yields capture values in a fixed order. -/
def structMatch (pat p : String) : Option (List String) :=
  matchSegs (compileSegs pat) (splitPath p)

/-- Modelled from the spec: the pair path-to-regexp returns to `Router.addRoute`
— the compiled matcher for the pattern together with the ordered parameter
names (the `keys` array). -/
def specCompile (pat : String) : (String → Option (List String)) × List String :=
  (fun p => structMatch pat p, paramNamesOf pat)

/-- Insertion into a JavaScript object viewed as an insertion-ordered
association list: assigning to an existing key overwrites its value in place,
assigning to a fresh key appends. Models `params[name] = value`. -/
def objInsert (l : List (String × String)) (k v : String) : List (String × String) :=
  if l.any (fun q => q.1 == k) then
    l.map (fun q => if q.1 == k then (k, v) else q)
  else l ++ [(k, v)]

/-- Embeds `Router._extractParams` (src/src/router.js lines 63-72): for each
parameter name in order, bind it to the corresponding capture-group value
(`matches[i + 1]` is the i-th capture, here the i-th entry of `caps`). -/
def extractParams (paramNames caps : List String) : List (String × String) :=
  (paramNames.zip caps).foldl (fun acc kv => objInsert acc kv.1 kv.2) []

/-- One registered route, as stored by `Router.addRoute`: uppercased method,
the pattern as authored, the compiled matcher, ordered parameter names, the
handler chain, and the group middleware attached at registration. Handlers and
middleware are embedded by name. -/
structure Route where
  method : String
  path : String
  regex : String → Option (List String)
  paramNames : List String
  handlers : List String
  middleware : List String

/-- The route value `Router.addRoute` pushes, for a given pattern compiler. -/
def mkRoute (compile : String → (String → Option (List String)) × List String)
    (mth pth : String) (hs : List String) : Route :=
  { method := upper mth
    path := pth
    regex := (compile pth).1
    paramNames := (compile pth).2
    handlers := hs
    middleware := [] }

/-- Embeds `Router.addRoute` (src/src/router.js lines 14-27): compile the
pattern, then append the new route to the table. -/
def addRoute (compile : String → (String → Option (List String)) × List String)
    (routes : List Route) (mth pth : String) (hs : List String) : List Route :=
  routes ++ [mkRoute compile mth pth hs]

/-- Embeds the loop body of `Router.match`: iterate the table in insertion
order, skip routes whose stored method differs from the normalized method,
test the compiled matcher, and return the first hit with extracted params. -/
def matchFrom : List Route → String → String → Option (Route × List (String × String))
  | [], _, _ => none
  | r :: rest, nm, p =>
    if r.method = nm then
      match r.regex p with
      | some caps => some (r, extractParams r.paramNames caps)
      | none => matchFrom rest nm p
    else matchFrom rest nm p

/-- Embeds `Router.match` (src/src/router.js lines 35-54): uppercase the
request method, then scan the table in registration order. The name `match` is
a keyword in Lean, hence `matchRoute`. -/
def matchRoute (routes : List Route) (mth p : String) :
    Option (Route × List (String × String)) :=
  matchFrom routes (upper mth) p

/-- Selects, from a pattern-segment/path-segment pair, the path segment when
the pattern segment is a parameter. Used to state which path segments a match
captures. -/
def capPick (x : Seg × String) : Option String :=
  match x.1 with
  | Seg.param _ => some x.2
  | Seg.lit _ => none

/-- One group registration scope: the fully resolved, normalized path pfx for
the scope and its accumulated middleware stack. Embeds the closure state of
`App._createGroupContext` (src/unnamed/part_002 lines 102-215): the constants
`cleanPrefix` and the mutable array `groupMiddleware`, middleware by name. -/
structure GroupCtx where
  cleanPfx : String
  stack : List String
deriving DecidableEq, Repr

/-- Embeds the pfx normalization of `App._createGroupContext` (lines 108-113):
ensure a leading slash, then drop a single trailing slash unless the result is
just the root slash. -/
def normPfx (p : String) : String :=
  let n : List Char :=
    match p.toList with
    | '/' :: rest => '/' :: rest
    | l => '/' :: l
  if n.getLast? = some '/' ∧ n.length > 1 then String.mk n.dropLast else String.mk n

/-- Embeds `App._createGroupContext(prefix, parentMiddleware)`: normalize the
pfx and seed the scope middleware stack with a copy of the parent stack
(line 116, the spread copy). -/
def createGroupContext (p : String) (parentMw : List String) : GroupCtx :=
  { cleanPfx := normPfx p, stack := parentMw }

/-- Embeds the nested `group` method of a group context (lines 202-213): stack
the prefixes, then create the child context seeded with this scope's current
stack. -/
def childCtx (ctx : GroupCtx) (p : String) : GroupCtx :=
  createGroupContext (ctx.cleanPfx ++ p) ctx.stack

/-- Overwrite the middleware of the last route in the table; helper for
`_addGroupMiddlewareToRoute`, which assigns to `routes[routes.length - 1]`. -/
def setLastMw (mw : List String) : List Route → List Route
  | [] => []
  | [r] => [{ r with middleware := mw }]
  | r :: rs => r :: setLastMw mw rs

/-- Embeds `App._addGroupMiddlewareToRoute` (lines 222-227): when the passed
stack and the table are non-empty, replace the most recently added route's
middleware with a copy of the stack. -/
def addGroupMiddlewareToRoute (mw : List String) (rs : List Route) : List Route :=
  if mw.isEmpty then rs else setLastMw mw rs

/-- Embeds one HTTP-method registration on a group context (e.g. its `get`,
lines 132-139): compute the full path by prepending the clean pfx, add the
route to the shared table, then attach the scope stack to the just-added
route. -/
def groupRegisterRoute
    (compile : String → (String → Option (List String)) × List String)
    (ctx : GroupCtx) (mth pth : String) (hs : List String)
    (rs : List Route) : List Route :=
  addGroupMiddlewareToRoute ctx.stack (addRoute compile rs mth (ctx.cleanPfx ++ pth) hs)

/-- The route value a group registration produces: the route of `addRoute` for
the prefixed path, carrying the scope stack captured at this instant. -/
def groupRoute (compile : String → (String → Option (List String)) × List String)
    (ctx : GroupCtx) (mth pth : String) (hs : List String) : Route :=
  { mkRoute compile mth (ctx.cleanPfx ++ pth) hs with middleware := ctx.stack }

/-- Deep embedding of the statements a user can write inside a `group`
callback: register scope middleware with `use`, register a route with an HTTP
method, open a nested group, and sequencing. Each constructor corresponds to
one call on the `GroupContext` object of src/unnamed/part_002. -/
inductive Reg where
  | use (m : String)
  | route (mth pth : String) (hs : List String)
  | grp (p : String) (body : Reg)
  | seq (a b : Reg)
  | skip

/-- Interpreter for a registration script run against a group context and the
shared route table. Mirrors the synchronous execution of a `group` callback:
`use` pushes onto this scope's stack; a route registration adds the prefixed
route and attaches the current stack; a nested group runs its body in a child
context seeded from this scope and leaves this scope's context untouched. -/
def runReg (compile : String → (String → Option (List String)) × List String) :
    Reg → GroupCtx → List Route → List Route × GroupCtx
  | .skip, ctx, rs => (rs, ctx)
  | .seq a b, ctx, rs =>
    let s := runReg compile a ctx rs
    runReg compile b s.2 s.1
  | .use m, ctx, rs => (rs, { ctx with stack := ctx.stack ++ [m] })
  | .route mth pth hs, ctx, rs => (groupRegisterRoute compile ctx mth pth hs rs, ctx)
  | .grp p body, ctx, rs => ((runReg compile body (childCtx ctx p) rs).1, ctx)

/-- Response bodies observable in the model: either an opaque user payload or
the structured error object `{ error, message, path, method }` the dispatcher
builds for 404 and 500 responses. -/
inductive Body where
  | payload (tag : String)
  | errorJson (error message pth mth : String)
deriving DecidableEq, Repr

/-- State of the `Response` wrapper (src/unnamed/part_010): the status code,
the body written by `json`, and the `_sent` flag. A fresh Node response has
status code 200. -/
structure Resp where
  statusCode : Nat := 200
  body : Option Body := none
  sent : Bool := false
deriving DecidableEq, Repr

/-- Embeds `Response.status`: set the status code, return the response for
chaining (no sent-flag guard in the source). -/
def Resp.setStatus (r : Resp) (c : Nat) : Resp := { r with statusCode := c }

/-- Embeds `Response.json`: refuse to write if a response was already sent;
otherwise record the body and raise the sent flag. -/
def Resp.json (r : Resp) (b : Body) : Resp :=
  if r.sent then r else { r with body := some b, sent := true }

/-- Behaviour of one middleware function, as observable by the dispatcher:
call `next()`; send a response and return without calling `next`; send a
response and then still call `next()`; throw (or reject); pass an error to
`next`; or return without sending and without calling `next`. -/
inductive MwAct where
  | callNext
  | send (status : Nat) (b : Body)
  | sendThenNext (status : Nat) (b : Body)
  | throwErr (msg : String)
  | nextErr (msg : String)
  | halt
deriving DecidableEq, Repr

/-- Behaviour of one route handler (no continuation parameter): send a
response, return without sending, or throw (or reject). -/
inductive HAct where
  | send (status : Nat) (b : Body)
  | noSend
  | throwErr (msg : String)
deriving DecidableEq, Repr

/-- Per-request execution state: the response wrapper plus the trace of
middleware/handler names that actually ran, in execution order. -/
structure ExecSt where
  resp : Resp
  trace : List String
deriving DecidableEq, Repr

/-- Embeds the `finalHandler` closure of `App._handleRequest` (src/unnamed/
part_002 lines 312-317): run the route handlers in order, checking the sent
flag before each one and breaking once a response has been sent. Returns the
final state and the uncaught error, if a handler threw. -/
def runHandlers (henv : String → HAct) : List String → ExecSt → ExecSt × Option String
  | [], st => (st, none)
  | h :: rest, st =>
    if st.resp.sent then (st, none)
    else
      match henv h with
      | .send c b =>
        runHandlers henv rest
          { resp := (st.resp.setStatus c).json b, trace := st.trace ++ [h] }
      | .noSend => runHandlers henv rest { st with trace := st.trace ++ [h] }
      | .throwErr msg => ({ st with trace := st.trace ++ [h] }, some msg)

/-- Embeds the `next` closure of `App._executeMiddleware` (src/unnamed/
part_002 lines 245-267) driving the whole chain: a passed error is thrown;
execution stops if a response has been sent; once the stack is exhausted the
final handler runs; otherwise the current middleware runs and the recursion
continues when (and only when) it calls `next`. Returns the final state and
the uncaught error, if any step threw or passed an error to `next`. -/
def runNext (env : String → MwAct) (henv : String → HAct) :
    List String → List String → ExecSt → ExecSt × Option String
  | [], hs, st => if st.resp.sent then (st, none) else runHandlers henv hs st
  | mwName :: rest, hs, st =>
    if st.resp.sent then (st, none)
    else
      match env mwName with
      | .callNext => runNext env henv rest hs { st with trace := st.trace ++ [mwName] }
      | .send c b =>
        ({ resp := (st.resp.setStatus c).json b, trace := st.trace ++ [mwName] }, none)
      | .sendThenNext c b =>
        runNext env henv rest hs
          { resp := (st.resp.setStatus c).json b, trace := st.trace ++ [mwName] }
      | .throwErr msg => ({ st with trace := st.trace ++ [mwName] }, some msg)
      | .nextErr msg => ({ st with trace := st.trace ++ [mwName] }, some msg)
      | .halt => ({ st with trace := st.trace ++ [mwName] }, none)

/-- Application registration state: the shared route table and the global
middleware list (`App.middleware`), by name, in registration order. -/
structure AppState where
  routes : List Route
  middleware : List String

/-- Tests whether the second string occurs inside the first, character-wise at
the front. Helper for `containsSub`. -/
def leadsWith : List Char → List Char → Bool
  | [], _ => true
  | _ :: _, [] => false
  | a :: as, b :: bs => a = b && leadsWith as bs

/-- Tests whether `sub` occurs somewhere inside `l`. Helper for `containsSub`. -/
def hasSub : List Char → List Char → Bool
  | sub, [] => leadsWith sub []
  | sub, c :: rest => leadsWith sub (c :: rest) || hasSub sub rest

/-- Substring containment on strings; models JavaScript
`String.prototype.includes` as used on the content-type header. -/
def containsSub (s sub : String) : Bool := hasSub sub.toList s.toList

/-- Embeds `Request._parseBody` (src/unnamed/part_009 lines 67-102): an empty
body resolves to null; a body under a JSON content type resolves when the JSON
parser accepts it and rejects with the fixed message when it does not; any
other body resolves as a raw string. The JSON parser itself (the runtime
builtin `JSON.parse`) is abstracted as the success predicate `jsonOk`. -/
def parseBody (jsonOk : String → Bool) (contentType bodyData : String) :
    Except String Unit :=
  if bodyData = "" then .ok ()
  else if containsSub contentType "application/json" then
    if jsonOk bodyData then .ok () else .error "Invalid JSON in request body"
  else .ok ()

/-- Embeds `App._handleRequest` (src/unnamed/part_002 lines 279-342): parse
the body; on a miss send the structured 404; on a hit build the chain as
global middleware concatenated with the matched route's middleware, run it
followed by the route handlers, and catch any error at this single boundary,
sending the structured 500 only when no response has been sent yet. A body
parse rejection reaches the same catch before any matching happens.
`freshExec` is the per-request state with a fresh `Response` wrapper and an
empty trace. -/
def freshExec : ExecSt := { resp := {}, trace := [] }

def handleRequest (jsonOk : String → Bool) (env : String → MwAct)
    (henv : String → HAct) (st : AppState) (mth pth contentType bodyData : String) :
    ExecSt :=
  match parseBody jsonOk contentType bodyData with
  | .error msg =>
    { freshExec with resp := ((freshExec.resp.setStatus 500).json
        (.errorJson "Internal Server Error" msg pth mth)) }
  | .ok _ =>
    match matchRoute st.routes mth pth with
    | none =>
      { freshExec with resp := ((freshExec.resp.setStatus 404).json
          (.errorJson "Not Found" ("Cannot " ++ mth ++ " " ++ pth) pth mth)) }
    | some (route, _params) =>
      match runNext env henv (st.middleware ++ route.middleware) route.handlers freshExec with
      | (out, none) => out
      | (out, some msg) =>
        if out.resp.sent then out
        else { out with resp := ((out.resp.setStatus 500).json
            (.errorJson "Internal Server Error" msg pth mth)) }

/-- Registration state used by concrete witnesses: a group with path pfx
"/api" containing one scope middleware and one route with two handlers,
together with two global middleware. -/
def demoRoutes : List Route :=
  (runReg specCompile (.seq (.use "m1") (.route "get" "/x" ["h1", "h2"]))
    (createGroupContext "/api" []) []).1

/-- Application state for the witnesses: the demo routes plus two global
middleware registered via `use`. -/
def demoApp : AppState := { routes := demoRoutes, middleware := ["g1", "g2"] }

/-- The route value the demo registration produces. -/
def demoRoute : Route :=
  groupRoute specCompile (createGroupContext "/api" ["m1"]) "get" "/x" ["h1", "h2"]

/-- Middleware environment for the short-circuit witness: one middleware sends
a 401 and then still calls its continuation; all others just call through. -/
def sendEnv : String → MwAct :=
  fun n => if n = "mw2" then .sendThenNext 401 (.payload "unauthorized") else .callNext

/-- Application with one route whose handler throws. -/
def errApp : AppState :=
  { routes := addRoute specCompile [] "GET" "/boom" ["hb"], middleware := [] }

lemma matchFrom_of_decomp (nm p : String) :
    ∀ (l₁ : List Route) (l₂ : List Route) (r : Route) (caps : List String),
      (∀ r₀ ∈ l₁, ¬ (r₀.method = nm ∧ (r₀.regex p).isSome)) →
      r.method = nm → r.regex p = some caps →
      matchFrom (l₁ ++ r :: l₂) nm p = some (r, extractParams r.paramNames caps) := by
  intro l₁
  induction l₁ with
  | nil =>
    intro l₂ r caps _ hrm hrx
    rw [List.nil_append, matchFrom, if_pos hrm, hrx]
  | cons y l₁ ih =>
    intro l₂ r caps hfail hrm hrx
    have hyfail := hfail y (by simp)
    have htail := ih l₂ r caps (fun r₀ h₀ => hfail r₀ (by simp [h₀])) hrm hrx
    by_cases hy : y.method = nm
    · cases hyx : y.regex p with
      | some caps₀ => exact absurd ⟨hy, by rw [hyx]; simp⟩ hyfail
      | none => rw [List.cons_append, matchFrom, if_pos hy, hyx]; exact htail
    · rw [List.cons_append, matchFrom, if_neg hy]; exact htail

lemma matchFrom_some_iff (nm p : String) (routes : List Route) (r : Route)
    (ps : List (String × String)) :
    matchFrom routes nm p = some (r, ps) ↔
      ∃ l₁ l₂ caps, routes = l₁ ++ r :: l₂
        ∧ (∀ r₀ ∈ l₁, ¬ (r₀.method = nm ∧ (r₀.regex p).isSome))
        ∧ r.method = nm ∧ r.regex p = some caps
        ∧ ps = extractParams r.paramNames caps := by
  constructor
  · induction routes generalizing r ps with
    | nil => intro h; simp [matchFrom] at h
    | cons x rest ih =>
      intro h
      by_cases hm : x.method = nm
      · cases hx : x.regex p with
        | some caps =>
          rw [matchFrom, if_pos hm, hx] at h
          simp only [Option.some.injEq, Prod.mk.injEq] at h
          refine ⟨[], rest, caps, by simp [h.1], by simp, ?_, ?_, ?_⟩
          · rw [← h.1]; exact hm
          · rw [← h.1]; exact hx
          · rw [← h.1, h.2]
        | none =>
          rw [matchFrom, if_pos hm, hx] at h
          obtain ⟨l₁, l₂, caps, hsplit, hfail, hrm, hrx, hps⟩ := ih r ps h
          refine ⟨x :: l₁, l₂, caps, by simp [hsplit], ?_, hrm, hrx, hps⟩
          intro r₀ hr₀
          rcases List.mem_cons.mp hr₀ with h₀ | h₀
          · subst h₀; rintro ⟨-, hiso⟩; rw [hx] at hiso; simp at hiso
          · exact hfail r₀ h₀
      · rw [matchFrom, if_neg hm] at h
        obtain ⟨l₁, l₂, caps, hsplit, hfail, hrm, hrx, hps⟩ := ih r ps h
        refine ⟨x :: l₁, l₂, caps, by simp [hsplit], ?_, hrm, hrx, hps⟩
        intro r₀ hr₀
        rcases List.mem_cons.mp hr₀ with h₀ | h₀
        · subst h₀; rintro ⟨hm₀, -⟩; exact hm hm₀
        · exact hfail r₀ h₀
  · rintro ⟨l₁, l₂, caps, hsplit, hfail, hrm, hrx, hps⟩
    rw [hsplit, hps]
    exact matchFrom_of_decomp nm p l₁ l₂ r caps hfail hrm hrx

/-- C1: for every route table and every request, `match` returns exactly the
first-registered route whose stored method equals the uppercased request method
and whose compiled matcher accepts the path, together with its extracted
params; every route registered before it fails on this request (so a
later-registered route with an overlapping pattern is never returned for a path
both could match). -/
theorem router_first_match (routes : List Route) (m p : String) (r : Route)
    (ps : List (String × String)) :
    matchRoute routes m p = some (r, ps) ↔
      ∃ l₁ l₂ caps, routes = l₁ ++ r :: l₂
        ∧ (∀ r₀ ∈ l₁, ¬ (r₀.method = upper m ∧ (r₀.regex p).isSome))
        ∧ r.method = upper m ∧ r.regex p = some caps
        ∧ ps = extractParams r.paramNames caps :=
  matchFrom_some_iff (upper m) p routes r ps

lemma matchSegs_length : ∀ (segs : List Seg) (ss caps : List String),
    matchSegs segs ss = some caps →
    caps.length = (segs.filterMap segParamName).length := by
  intro segs
  induction segs with
  | nil =>
    intro ss caps h
    cases ss with
    | nil => simp [matchSegs] at h; simp [← h, List.filterMap]
    | cons s ss => simp [matchSegs] at h
  | cons sg rest ih =>
    intro ss caps h
    cases ss with
    | nil => cases sg <;> simp [matchSegs] at h
    | cons s ss =>
      cases sg with
      | lit l =>
        rw [matchSegs] at h
        by_cases hs : s = l
        · rw [if_pos hs] at h
          simpa [segParamName] using ih ss caps h
        · rw [if_neg hs] at h; cases h
      | param n =>
        rw [matchSegs] at h
        by_cases hs : s = ""
        · rw [if_pos hs] at h; cases h
        · rw [if_neg hs] at h
          cases htail : matchSegs rest ss with
          | none => rw [htail] at h; cases h
          | some caps₀ =>
            rw [htail] at h
            simp only [Option.map_some', Option.some.injEq] at h
            subst h
            simpa [segParamName] using ih ss caps₀ htail

lemma matchSegs_caps : ∀ (segs : List Seg) (ss caps : List String),
    matchSegs segs ss = some caps →
    caps = (segs.zip ss).filterMap capPick := by
  intro segs
  induction segs with
  | nil =>
    intro ss caps h
    cases ss with
    | nil => simp [matchSegs] at h; simp [← h]
    | cons s ss => simp [matchSegs] at h
  | cons sg rest ih =>
    intro ss caps h
    cases ss with
    | nil => cases sg <;> simp [matchSegs] at h
    | cons s ss =>
      cases sg with
      | lit l =>
        rw [matchSegs] at h
        by_cases hs : s = l
        · rw [if_pos hs] at h
          simpa [capPick] using ih ss caps h
        · rw [if_neg hs] at h; cases h
      | param n =>
        rw [matchSegs] at h
        by_cases hs : s = ""
        · rw [if_pos hs] at h; cases h
        · rw [if_neg hs] at h
          cases htail : matchSegs rest ss with
          | none => rw [htail] at h; cases h
          | some caps₀ =>
            rw [htail] at h
            simp only [Option.map_some', Option.some.injEq] at h
            subst h
            simpa [capPick] using ih ss caps₀ htail

lemma objInsert_fresh (acc : List (String × String)) (k v : String)
    (hk : ∀ q ∈ acc, q.1 ≠ k) : objInsert acc k v = acc ++ [(k, v)] := by
  rw [objInsert, if_neg]
  simp only [List.any_eq_true, not_exists, not_and, Bool.not_eq_true]
  intro q hq
  simpa using hk q hq

lemma foldl_objInsert_fresh :
    ∀ (names caps : List String) (acc : List (String × String)),
      names.Nodup → (∀ k ∈ names, ∀ q ∈ acc, q.1 ≠ k) →
      (names.zip caps).foldl (fun acc kv => objInsert acc kv.1 kv.2) acc
        = acc ++ names.zip caps := by
  intro names
  induction names with
  | nil => intro caps acc _ _; simp
  | cons n rest ih =>
    intro caps acc hnodup hfresh
    cases caps with
    | nil => simp
    | cons v caps =>
      simp only [List.zip_cons_cons, List.foldl_cons]
      rw [objInsert_fresh acc n v (hfresh n (by simp))]
      rw [ih caps (acc ++ [(n, v)]) (List.Nodup.of_cons hnodup) ?_]
      · simp
      · intro k hk q hq
        rcases List.mem_append.mp hq with hq₀ | hq₀
        · exact hfresh k (by simp [hk]) q hq₀
        · have : q = (n, v) := by simpa using hq₀
          subst this
          intro hnk
          have hnk2 : n = k := hnk
          exact (List.nodup_cons.mp hnodup).1 (by rw [hnk2]; exact hk)

lemma extractParams_eq_zip (names caps : List String) (hnodup : names.Nodup) :
    extractParams names caps = names.zip caps := by
  rw [extractParams, foldl_objInsert_fresh names caps [] hnodup (by simp)]
  simp

/-- C2: for a route registered for pattern `pat` (whose parameter names are
distinct, the only patterns for which extraction is well defined), and any
path that structurally matches the pattern with captures `caps`, `match`
returns a params mapping equal to zipping the parameter names of `pat`, in
capture order, with the captures; the mapping has exactly as many entries as
the pattern has named parameters, and the captures are exactly the path
segments at the parameter positions of the pattern. -/
theorem match_extracts_params (pat mth p : String) (caps hs : List String)
    (hnodup : (paramNamesOf pat).Nodup)
    (hmatch : structMatch pat p = some caps) :
    matchRoute (addRoute specCompile [] mth pat hs) mth p
      = some (mkRoute specCompile mth pat hs, (paramNamesOf pat).zip caps)
    ∧ ((paramNamesOf pat).zip caps).length = (paramNamesOf pat).length
    ∧ caps = ((compileSegs pat).zip (splitPath p)).filterMap capPick := by
  have hlen : caps.length = (paramNamesOf pat).length :=
    matchSegs_length (compileSegs pat) (splitPath p) caps hmatch
  refine ⟨?_, ?_, matchSegs_caps (compileSegs pat) (splitPath p) caps hmatch⟩
  · have h1 := matchFrom_of_decomp (upper mth) p [] []
      (mkRoute specCompile mth pat hs) caps (by simp) rfl hmatch
    have h2 : extractParams (mkRoute specCompile mth pat hs).paramNames caps
        = (paramNamesOf pat).zip caps :=
      extractParams_eq_zip (paramNamesOf pat) caps hnodup
    rw [h2] at h1
    exact h1
  · simp [List.length_zip, hlen]

/-- Witness for C2 at the pattern of the spec's running example. -/
theorem match_extracts_params_witness :
    (paramNamesOf "/users/:id/posts/:postId").Nodup
    ∧ structMatch "/users/:id/posts/:postId" "/users/42/posts/7" = some ["42", "7"]
    ∧ matchRoute (addRoute specCompile [] "GET" "/users/:id/posts/:postId" ["h"])
        "GET" "/users/42/posts/7"
        = some (mkRoute specCompile "GET" "/users/:id/posts/:postId" ["h"],
            [("id", "42"), ("postId", "7")]) :=
  ⟨by decide, by decide,
    (match_extracts_params "/users/:id/posts/:postId" "GET" "/users/42/posts/7"
      ["42", "7"] ["h"] (by decide) (by decide)).1⟩

lemma setLastMw_append (mw : List String) :
    ∀ (l : List Route) (r : Route),
      setLastMw mw (l ++ [r]) = l ++ [{ r with middleware := mw }] := by
  intro l
  induction l with
  | nil => intro r; rfl
  | cons x ltail ih =>
    intro r
    cases ltail with
    | nil => rfl
    | cons y l2 =>
      show x :: setLastMw mw ((y :: l2) ++ [r])
          = x :: ((y :: l2) ++ [{ r with middleware := mw }])
      rw [ih r]

lemma groupRegisterRoute_eq
    (compile : String → (String → Option (List String)) × List String)
    (ctx : GroupCtx) (mth pth : String) (hs : List String) (rs : List Route) :
    groupRegisterRoute compile ctx mth pth hs rs
      = rs ++ [groupRoute compile ctx mth pth hs] := by
  rw [groupRegisterRoute, addRoute, addGroupMiddlewareToRoute]
  by_cases hmw : ctx.stack.isEmpty
  · rw [if_pos hmw]
    have : ctx.stack = [] := List.isEmpty_iff.mp hmw
    simp [groupRoute, mkRoute, this]
  · rw [if_neg hmw, setLastMw_append]
    rfl

lemma runReg_ctx_indep
    (compile : String → (String → Option (List String)) × List String) :
    ∀ (r : Reg) (ctx : GroupCtx) (rs rs₀ : List Route),
      (runReg compile r ctx rs).2 = (runReg compile r ctx rs₀).2 := by
  intro r
  induction r with
  | use m => intro ctx rs rs₀; rfl
  | route mth pth hs => intro ctx rs rs₀; rfl
  | grp p body => intro ctx rs rs₀; rfl
  | skip => intro ctx rs rs₀; rfl
  | seq a b iha ihb =>
    intro ctx rs rs₀
    show (runReg compile b (runReg compile a ctx rs).2 (runReg compile a ctx rs).1).2 = _
    rw [iha ctx rs rs₀]
    exact ihb (runReg compile a ctx rs₀).2 (runReg compile a ctx rs).1 (runReg compile a ctx rs₀).1

lemma runReg_routes_shift
    (compile : String → (String → Option (List String)) × List String) :
    ∀ (r : Reg) (ctx : GroupCtx) (rs : List Route),
      (runReg compile r ctx rs).1 = rs ++ (runReg compile r ctx []).1 := by
  intro r
  induction r with
  | use m => intro ctx rs; simp [runReg]
  | skip => intro ctx rs; simp [runReg]
  | route mth pth hs =>
    intro ctx rs
    show groupRegisterRoute compile ctx mth pth hs rs = rs ++ groupRegisterRoute compile ctx mth pth hs []
    rw [groupRegisterRoute_eq, groupRegisterRoute_eq, List.nil_append]
  | grp p body ih =>
    intro ctx rs
    show (runReg compile body (childCtx ctx p) rs).1 = rs ++ (runReg compile body (childCtx ctx p) []).1
    exact ih (childCtx ctx p) rs
  | seq a b iha ihb =>
    intro ctx rs
    show (runReg compile b (runReg compile a ctx rs).2 (runReg compile a ctx rs).1).1 = _
    rw [ihb (runReg compile a ctx rs).2 (runReg compile a ctx rs).1, iha ctx rs]
    show rs ++ (runReg compile a ctx []).1 ++ _ = rs ++ (runReg compile (.seq a b) ctx []).1
    have hb : (runReg compile (.seq a b) ctx []).1
        = (runReg compile a ctx []).1
          ++ (runReg compile b (runReg compile a ctx []).2 []).1 := by
      show (runReg compile b (runReg compile a ctx []).2 (runReg compile a ctx []).1).1 = _
      rw [ihb (runReg compile a ctx []).2 (runReg compile a ctx []).1]
    rw [hb, runReg_ctx_indep compile a ctx rs [], List.append_assoc]

lemma runReg_append_only
    (compile : String → (String → Option (List String)) × List String)
    (r : Reg) (ctx : GroupCtx) (rs : List Route) :
    ∃ t, (runReg compile r ctx rs).1 = rs ++ t :=
  ⟨(runReg compile r ctx []).1, runReg_routes_shift compile r ctx rs⟩

/-- C7: a route registered through a group scope captures the scope's
accumulated middleware stack exactly as it stands at the instant of the
registration call: running any earlier statements `a`, then the registration,
then ANY later statements `c` (in particular later `use` calls on the same
scope), leaves the route sitting in the table with middleware equal to the
stack after `a`; later statements only append further routes after it. -/
theorem group_route_captures_stack
    (compile : String → (String → Option (List String)) × List String)
    (ctx : GroupCtx) (rs : List Route) (a c : Reg) (mth pth : String)
    (hs : List String) :
    ∃ t, (runReg compile (.seq a (.seq (.route mth pth hs) c)) ctx rs).1
      = (runReg compile a ctx rs).1
        ++ groupRoute compile (runReg compile a ctx rs).2 mth pth hs :: t := by
  refine ⟨(runReg compile c (runReg compile a ctx rs).2 []).1, ?_⟩
  show (runReg compile c (runReg compile a ctx rs).2
      (groupRegisterRoute compile (runReg compile a ctx rs).2 mth pth hs
        (runReg compile a ctx rs).1)).1 = _
  rw [runReg_routes_shift compile c, groupRegisterRoute_eq]
  simp [List.append_assoc]

/-- C8: nesting a group inside a scope is fully isolated from the enclosing
scope. First conjunct: the final table decomposes as the routes of the earlier
statements `a`, then the routes the child body registers (computed from a child
context seeded from the parent scope at the instant the nested group is
created), then the routes of the later statements `c` computed from the parent
context alone — so nothing the child does (in particular its `use` calls) can
appear in routes registered outside it, and later parent `use` calls cannot
reach into the already-run child. Second conjunct: the parent context evolves
exactly as if the nested group were absent, so child middleware never enters
the parent's stack. Third conjunct: the child's seed stack is a copy of the
parent's stack at creation. -/
theorem group_stack_isolation
    (compile : String → (String → Option (List String)) × List String)
    (ctx : GroupCtx) (rs : List Route) (a : Reg) (p : String) (body c : Reg) :
    ((runReg compile (.seq a (.seq (.grp p body) c)) ctx rs).1
      = (runReg compile a ctx rs).1
        ++ (runReg compile body (childCtx (runReg compile a ctx rs).2 p) []).1
        ++ (runReg compile c (runReg compile a ctx rs).2 []).1)
    ∧ (runReg compile (.seq a (.seq (.grp p body) c)) ctx rs).2
        = (runReg compile (.seq a c) ctx rs).2
    ∧ (childCtx (runReg compile a ctx rs).2 p).stack
        = (runReg compile a ctx rs).2.stack := by
  refine ⟨?_, ?_, rfl⟩
  · show (runReg compile c (runReg compile a ctx rs).2
      ((runReg compile body (childCtx (runReg compile a ctx rs).2 p)
        (runReg compile a ctx rs).1).1)).1 = _
    rw [runReg_routes_shift compile c,
      runReg_routes_shift compile body _ (runReg compile a ctx rs).1]
  · show (runReg compile c (runReg compile a ctx rs).2
      ((runReg compile body (childCtx (runReg compile a ctx rs).2 p)
        (runReg compile a ctx rs).1).1)).2
      = (runReg compile c (runReg compile a ctx rs).2 (runReg compile a ctx rs).1).2
    exact runReg_ctx_indep compile c (runReg compile a ctx rs).2 _ _

lemma json_sent (r : Resp) (c : Nat) (b : Body) (h : r.sent = false) :
    ((r.setStatus c).json b).sent = true := by
  simp [Resp.json, Resp.setStatus, h]

lemma runNext_of_sent (env : String → MwAct) (henv : String → HAct)
    (stack hs : List String) (st : ExecSt) (h : st.resp.sent = true) :
    runNext env henv stack hs st = (st, none) := by
  cases stack with
  | nil => rw [runNext, if_pos h]
  | cons m rest => rw [runNext, if_pos h]

lemma runHandlers_of_sent (henv : String → HAct)
    (hs : List String) (st : ExecSt) (h : st.resp.sent = true) :
    runHandlers henv hs st = (st, none) := by
  cases hs with
  | nil => rfl
  | cons x rest => rw [runHandlers, if_pos h]

lemma runHandlers_clean (henv : String → HAct) :
    ∀ (hs : List String) (st : ExecSt), st.resp.sent = false →
      (∀ h ∈ hs, henv h = .noSend) →
      runHandlers henv hs st = ({ st with trace := st.trace ++ hs }, none) := by
  intro hs
  induction hs with
  | nil => intro st _ _; simp [runHandlers]
  | cons x rest ih =>
    intro st hsent hns
    rw [runHandlers, if_neg (by simp [hsent]), hns x (by simp)]
    rw [ih { st with trace := st.trace ++ [x] } hsent (fun h hh => hns h (by simp [hh]))]
    simp

lemma runNext_clean (env : String → MwAct) (henv : String → HAct) :
    ∀ (stack hs : List String) (st : ExecSt), st.resp.sent = false →
      (∀ m ∈ stack, env m = .callNext) → (∀ h ∈ hs, henv h = .noSend) →
      runNext env henv stack hs st = ({ st with trace := st.trace ++ stack ++ hs }, none) := by
  intro stack
  induction stack with
  | nil =>
    intro hs st hsent _ hns
    rw [runNext, if_neg (by simp [hsent]), runHandlers_clean henv hs st hsent hns]
    simp
  | cons m rest ih =>
    intro hs st hsent hcn hns
    rw [runNext, if_neg (by simp [hsent]), hcn m (by simp)]
    rw [ih hs { st with trace := st.trace ++ [m] } hsent (fun x hx => hcn x (by simp [hx])) hns]
    simp

lemma runNext_callNext_pre (env : String → MwAct) (henv : String → HAct) :
    ∀ (pre rest hs : List String) (st : ExecSt), st.resp.sent = false →
      (∀ x ∈ pre, env x = .callNext) →
      runNext env henv (pre ++ rest) hs st
        = runNext env henv rest hs { st with trace := st.trace ++ pre } := by
  intro pre
  induction pre with
  | nil => intro rest hs st _ _; simp
  | cons x pre ih =>
    intro rest hs st hsent hcn
    rw [List.cons_append, runNext, if_neg (by simp [hsent]), hcn x (by simp)]
    rw [ih rest hs { st with trace := st.trace ++ [x] } hsent (fun y hy => hcn y (by simp [hy]))]
    simp

lemma runNext_sendThenNext (env : String → MwAct) (henv : String → HAct) :
    ∀ (pre : List String) (m : String) (post hs : List String) (st : ExecSt)
      (c : Nat) (b : Body),
      st.resp.sent = false → env m = .sendThenNext c b →
      (∀ x ∈ pre, env x = .callNext) →
      runNext env henv (pre ++ m :: post) hs st
        = ({ resp := (st.resp.setStatus c).json b,
             trace := st.trace ++ pre ++ [m] }, none) := by
  intro pre
  induction pre with
  | nil =>
    intro m post hs st c b hsent hm _
    have step : runNext env henv (m :: post) hs st
        = runNext env henv post hs
            { resp := (st.resp.setStatus c).json b, trace := st.trace ++ [m] } := by
      rw [runNext, if_neg (by simp [hsent]), hm]
    rw [List.nil_append, step,
      runNext_of_sent env henv post hs _ (json_sent st.resp c b hsent)]
    simp
  | cons x pre ih =>
    intro m post hs st c b hsent hm hcn
    have step : runNext env henv ((x :: pre) ++ m :: post) hs st
        = runNext env henv (pre ++ m :: post) hs
            { st with trace := st.trace ++ [x] } := by
      rw [List.cons_append, runNext, if_neg (by simp [hsent]), hcn x (by simp)]
    rw [step, ih m post hs { st with trace := st.trace ++ [x] } c b hsent hm
      (fun y hy => hcn y (by simp [hy]))]
    simp

lemma runNext_throwMw (env : String → MwAct) (henv : String → HAct) :
    ∀ (pre : List String) (m : String) (post hs : List String) (st : ExecSt)
      (msg : String),
      st.resp.sent = false → env m = .throwErr msg →
      (∀ x ∈ pre, env x = .callNext) →
      runNext env henv (pre ++ m :: post) hs st
        = ({ st with trace := st.trace ++ pre ++ [m] }, some msg) := by
  intro pre
  induction pre with
  | nil =>
    intro m post hs st msg hsent hm _
    have step : runNext env henv (m :: post) hs st
        = ({ st with trace := st.trace ++ [m] }, some msg) := by
      rw [runNext, if_neg (by simp [hsent]), hm]
    rw [List.nil_append, step]
    simp
  | cons x pre ih =>
    intro m post hs st msg hsent hm hcn
    have step : runNext env henv ((x :: pre) ++ m :: post) hs st
        = runNext env henv (pre ++ m :: post) hs
            { st with trace := st.trace ++ [x] } := by
      rw [List.cons_append, runNext, if_neg (by simp [hsent]), hcn x (by simp)]
    rw [step, ih m post hs { st with trace := st.trace ++ [x] } msg hsent hm
      (fun y hy => hcn y (by simp [hy]))]
    simp

lemma handleRequest_hit (jsonOk : String → Bool) (env : String → MwAct)
    (henv : String → HAct) (st : AppState) (mth pth ct bd : String)
    (route : Route) (params : List (String × String))
    (hparse : parseBody jsonOk ct bd = .ok ())
    (hmatch : matchRoute st.routes mth pth = some (route, params)) :
    handleRequest jsonOk env henv st mth pth ct bd
      = (match runNext env henv (st.middleware ++ route.middleware)
            route.handlers freshExec with
         | (out, none) => out
         | (out, some msg) =>
           if out.resp.sent then out
           else { out with resp := ((out.resp.setStatus 500).json
               (.errorJson "Internal Server Error" msg pth mth)) }) := by
  unfold handleRequest
  rw [hparse, hmatch]

/-- C3: for every matched request, the dispatcher assembles the chain as the
application's global middleware (in registration order) concatenated with the
matched route's captured middleware (in the order captured at registration),
followed by the route's handlers (in registration order), and executes it
strictly sequentially in exactly that order: with every middleware calling its
continuation and no step sending a response, the execution trace is precisely
that concatenation. -/
theorem chain_runs_in_order (jsonOk : String → Bool) (env : String → MwAct)
    (henv : String → HAct) (st : AppState) (mth pth ct bd : String)
    (route : Route) (params : List (String × String))
    (hparse : parseBody jsonOk ct bd = .ok ())
    (hmatch : matchRoute st.routes mth pth = some (route, params))
    (hmw : ∀ m ∈ st.middleware ++ route.middleware, env m = .callNext)
    (hh : ∀ h ∈ route.handlers, henv h = .noSend) :
    handleRequest jsonOk env henv st mth pth ct bd
      = { resp := {}, trace := st.middleware ++ route.middleware ++ route.handlers } := by
  rw [handleRequest_hit jsonOk env henv st mth pth ct bd route params hparse hmatch]
  rw [runNext_clean env henv (st.middleware ++ route.middleware) route.handlers
    freshExec rfl hmw hh]
  simp [freshExec]

/-- C4: once a chain step has sent a response, no later step of that chain
ever executes. First conjunct: the continuation refuses to advance from any
state whose sent flag is set (the sent check at the top of every `next` call).
Second conjunct: the trailing handler loop likewise runs nothing from a sent
state (the sent check before every handler). Third conjunct: even when the
sending middleware itself still invokes the continuation afterwards, the chain
stops at that exact point — the trace ends with the sender, the response it
wrote stands, and the remaining middleware and all handlers never run. -/
theorem response_sent_short_circuits (env : String → MwAct) (henv : String → HAct) :
    (∀ (stack hs : List String) (st : ExecSt), st.resp.sent = true →
      runNext env henv stack hs st = (st, none))
    ∧ (∀ (hs : List String) (st : ExecSt), st.resp.sent = true →
      runHandlers henv hs st = (st, none))
    ∧ (∀ (pre : List String) (m : String) (post hs : List String) (st : ExecSt)
        (c : Nat) (b : Body), st.resp.sent = false → env m = .sendThenNext c b →
        (∀ x ∈ pre, env x = .callNext) →
        runNext env henv (pre ++ m :: post) hs st
          = ({ resp := (st.resp.setStatus c).json b,
               trace := st.trace ++ pre ++ [m] }, none)) :=
  ⟨runNext_of_sent env henv, runHandlers_of_sent henv,
    runNext_sendThenNext env henv⟩

/-- C5: faults are recovered at the single dispatcher boundary. First
conjunct: whenever the chain execution for a matched request ends with an
uncaught error, the dispatcher's result is the chain's final state with a 500
response carrying body `error = "Internal Server Error"`, `message` = the
caught error's message, plus path and method — written if and only if no
response had been sent yet (if one had, the state is returned untouched: no
second response); in either case `handleRequest` returns an ordinary state, so
the fault never escapes. Second conjunct: a middleware that throws (or passes
an error to its continuation, which the source turns into the same throw)
aborts the chain immediately — the trace ends at the faulting step, the
response is untouched at that point, and no later middleware or handler runs. -/
theorem error_caught_at_boundary (jsonOk : String → Bool) (env : String → MwAct)
    (henv : String → HAct) :
    (∀ (st : AppState) (mth pth ct bd : String) (route : Route)
        (params : List (String × String)) (st1 : ExecSt) (msg : String),
      parseBody jsonOk ct bd = .ok () →
      matchRoute st.routes mth pth = some (route, params) →
      runNext env henv (st.middleware ++ route.middleware) route.handlers freshExec
        = (st1, some msg) →
      handleRequest jsonOk env henv st mth pth ct bd
        = if st1.resp.sent then st1
          else { st1 with resp := ((st1.resp.setStatus 500).json
              (.errorJson "Internal Server Error" msg pth mth)) })
    ∧ (∀ (pre : List String) (m : String) (post hs : List String) (st : ExecSt)
        (msg : String), st.resp.sent = false → env m = .throwErr msg →
        (∀ x ∈ pre, env x = .callNext) →
        runNext env henv (pre ++ m :: post) hs st
          = ({ st with trace := st.trace ++ pre ++ [m] }, some msg)) := by
  refine ⟨?_, runNext_throwMw env henv⟩
  intro st mth pth ct bd route params st1 msg hparse hmatch hrun
  rw [handleRequest_hit jsonOk env henv st mth pth ct bd route params hparse hmatch]
  rw [hrun]

/-- C6: a request whose method and path match no registered route receives the
structured 404 response — status 404, body with `error = "Not Found"`, a
message naming the unmatched method and path, plus path and method — and the
execution trace is empty: no middleware and no handler runs. -/
theorem unmatched_responds_404 (jsonOk : String → Bool) (env : String → MwAct)
    (henv : String → HAct) (st : AppState) (mth pth ct bd : String)
    (hparse : parseBody jsonOk ct bd = .ok ())
    (hmiss : matchRoute st.routes mth pth = none) :
    handleRequest jsonOk env henv st mth pth ct bd
      = { resp := { statusCode := 404
                    body := some (.errorJson "Not Found" ("Cannot " ++ mth ++ " " ++ pth) pth mth)
                    sent := true }
          trace := [] } := by
  unfold handleRequest
  rw [hparse, hmiss]
  rfl

/-- C10: a request whose body fails to parse is answered with a 500 response
whose message is exactly "Invalid JSON in request body", before any route
matching happens and before any middleware or handler runs: the result holds
for every route table — including one in which nothing matches the request, so
such a request receives 500 rather than 404 — and the execution trace is
empty. -/
theorem parse_failure_responds_500 (jsonOk : String → Bool) (env : String → MwAct)
    (henv : String → HAct) (st : AppState) (mth pth ct bd msg : String)
    (hparse : parseBody jsonOk ct bd = .error msg) :
    msg = "Invalid JSON in request body"
    ∧ handleRequest jsonOk env henv st mth pth ct bd
      = { resp := { statusCode := 500
                    body := some (.errorJson "Internal Server Error" msg pth mth)
                    sent := true }
          trace := [] } := by
  constructor
  · unfold parseBody at hparse
    split_ifs at hparse
    exact (Except.error.inj hparse).symm
  · unfold handleRequest
    rw [hparse]
    rfl

/-- C9 evaluation: the router itself performs no trailing-slash normalization
on either side. For any pattern compiler, registering the pattern with a
trailing slash stores that pattern verbatim and compiles the matcher from it
verbatim, and matching a request path consults that stored matcher on the
verbatim request path — the outcome is exactly whatever the compiled matcher
(in the repository, the external path-to-regexp dependency) decides. -/
theorem no_trailing_slash_normalization
    (compile : String → (String → Option (List String)) × List String)
    (hs : List String) :
    (addRoute compile [] "GET" "/about/" hs).map Route.path = ["/about/"]
    ∧ matchRoute (addRoute compile [] "GET" "/about/" hs) "GET" "/about"
        = ((compile "/about/").1 "/about").map
            (fun caps => (mkRoute compile "GET" "/about/" hs,
              extractParams (compile "/about/").2 caps)) := by
  constructor
  · rfl
  · have e : (mkRoute compile "GET" "/about/" hs).method = upper "GET" := rfl
    show matchFrom [mkRoute compile "GET" "/about/" hs] (upper "GET") "/about" = _
    rw [matchFrom, if_pos e]
    have e2 : (mkRoute compile "GET" "/about/" hs).regex "/about"
        = (compile "/about/").1 "/about" := rfl
    rw [e2]
    cases hx : (compile "/about/").1 "/about" with
    | none => rfl
    | some caps => rfl

/-- Witness for C1: two overlapping routes for the same method; the
first-registered one is returned for a path both match. -/
theorem router_first_match_witness :
    matchRoute (addRoute specCompile (addRoute specCompile [] "GET" "/a/:x" ["h1"])
        "GET" "/a/:y" ["h2"]) "GET" "/a/7"
      = some (mkRoute specCompile "GET" "/a/:x" ["h1"], [("x", "7")]) :=
  (router_first_match _ "GET" "/a/7" _ _).mpr
    ⟨[], [mkRoute specCompile "GET" "/a/:y" ["h2"]], ["7"], rfl, by simp, rfl, rfl, rfl⟩

/-- Witness for C3: the full chain executes as global middleware, then group
middleware, then handlers, in order. -/
theorem chain_runs_in_order_witness :
    matchRoute demoApp.routes "GET" "/api/x" = some (demoRoute, [])
    ∧ handleRequest (fun _ => true) (fun _ => .callNext) (fun _ => .noSend)
        demoApp "GET" "/api/x" "" ""
      = { resp := {}, trace := ["g1", "g2", "m1", "h1", "h2"] } :=
  ⟨rfl,
    chain_runs_in_order (fun _ => true) (fun _ => .callNext) (fun _ => .noSend)
      demoApp "GET" "/api/x" "" "" demoRoute [] rfl rfl
      (fun _ _ => rfl) (fun _ _ => rfl)⟩

/-- Witness for C4: a middleware sends a 401 and still calls `next`; the chain
stops right there — the later middleware and the handler never run. -/
theorem response_sent_short_circuits_witness :
    runNext sendEnv (fun _ => .noSend) ["mw1", "mw2", "mw3"] ["h1"] freshExec
      = ({ resp := { statusCode := 401
                     body := some (.payload "unauthorized")
                     sent := true }
           trace := ["mw1", "mw2"] }, none) :=
  (response_sent_short_circuits sendEnv (fun _ => .noSend)).2.2
    ["mw1"] "mw2" ["mw3"] ["h1"] freshExec 401 (.payload "unauthorized") rfl rfl
    (by intro x hx; simp at hx; subst hx; rfl)

/-- Witness for C5: a throwing handler produces the structured 500 with the
thrown message, and nothing after it runs. -/
theorem error_caught_at_boundary_witness :
    handleRequest (fun _ => true) (fun _ => .callNext) (fun _ => .throwErr "boom")
        errApp "GET" "/boom" "" ""
      = { resp := { statusCode := 500
                    body := some (.errorJson "Internal Server Error" "boom" "/boom" "GET")
                    sent := true }
          trace := ["hb"] } :=
  (error_caught_at_boundary (fun _ => true) (fun _ => .callNext)
      (fun _ => .throwErr "boom")).1
    errApp "GET" "/boom" "" "" (mkRoute specCompile "GET" "/boom" ["hb"]) []
    { resp := {}, trace := ["hb"] } "boom" rfl rfl rfl

/-- Witness for C6: a request for an unregistered path receives the 404 body
and the trace stays empty. -/
theorem unmatched_responds_404_witness :
    handleRequest (fun _ => true) (fun _ => .callNext) (fun _ => .noSend)
        { routes := [], middleware := [] } "GET" "/nope" "" ""
      = { resp := { statusCode := 404
                    body := some (.errorJson "Not Found" "Cannot GET /nope" "/nope" "GET")
                    sent := true }
          trace := [] } :=
  unmatched_responds_404 (fun _ => true) (fun _ => .callNext) (fun _ => .noSend)
    { routes := [], middleware := [] } "GET" "/nope" "" "" rfl rfl

/-- Witness for C10: an invalid JSON body on a path with no registered route
yields 500 (not 404) with the fixed message, and nothing runs. -/
theorem parse_failure_responds_500_witness :
    parseBody (fun _ => false) "application/json" "not json"
      = .error "Invalid JSON in request body"
    ∧ handleRequest (fun _ => false) (fun _ => .callNext) (fun _ => .noSend)
        { routes := [], middleware := [] } "GET" "/nope" "application/json" "not json"
      = { resp := { statusCode := 500
                    body := some (.errorJson "Internal Server Error"
                      "Invalid JSON in request body" "/nope" "GET")
                    sent := true }
          trace := [] } :=
  ⟨rfl,
    (parse_failure_responds_500 (fun _ => false) (fun _ => .callNext) (fun _ => .noSend)
      { routes := [], middleware := [] } "GET" "/nope" "application/json" "not json"
      "Invalid JSON in request body" rfl).2⟩

/-- Witness for C7 at a concrete script: register middleware, then a route,
then more middleware; the route keeps the stack from its registration instant. -/
theorem group_route_captures_stack_witness :
    ∃ t, (runReg specCompile (.seq (.use "m1") (.seq (.route "get" "/x" ["h"]) (.use "m2")))
        (createGroupContext "/api" []) []).1
      = (runReg specCompile (.use "m1") (createGroupContext "/api" []) []).1
        ++ groupRoute specCompile
            (runReg specCompile (.use "m1") (createGroupContext "/api" []) []).2
            "get" "/x" ["h"] :: t :=
  group_route_captures_stack specCompile (createGroupContext "/api" []) []
    (.use "m1") (.use "m2") "get" "/x" ["h"]

/-- Witness for C8 at a concrete script: a nested group adding middleware does
not change how the parent scope's context evolves. -/
theorem group_stack_isolation_witness :
    (runReg specCompile (.seq .skip (.seq (.grp "/admin" (.use "cmw")) (.use "pmw")))
        (createGroupContext "/api" []) []).2
      = (runReg specCompile (.seq .skip (.use "pmw")) (createGroupContext "/api" []) []).2 :=
  (group_stack_isolation specCompile (createGroupContext "/api" []) []
    .skip "/admin" (.use "cmw") (.use "pmw")).2.1

/-- Witness for the C9 evaluation at the spec-modelled matcher: the verbatim
pattern and the verbatim path reach the matcher unchanged. -/
theorem no_trailing_slash_normalization_witness :
    matchRoute (addRoute specCompile [] "GET" "/about/" ["h"]) "GET" "/about"
      = ((specCompile "/about/").1 "/about").map
          (fun caps => (mkRoute specCompile "GET" "/about/" ["h"],
            extractParams (specCompile "/about/").2 caps)) :=
  (no_trailing_slash_normalization specCompile ["h"]).2

